import Mathlib

/-!
# Verification of `heroku/database.py` (`Database` class)

A shallow embedding of the configuration store in `src/heroku/database.py`.

Python dictionaries are modelled as insertion-ordered association lists with
unique keys.  Because the live store's owner namespaces are *shared by
reference* with revision snapshots (`dict(self)` only copies the top level),
the model carries an explicit heap: the top-level store maps owner keys to
either a heap reference (a dict object) or a plain non-dict value, and
namespace dictionaries live in the heap, addressed by allocation index.
-/

set_option autoImplicit false

namespace HerokuDB

/-- Python values as far as the database code distinguishes them:
JSON primitives, lists, dicts, and arbitrary non-JSON-serializable objects
(`obj id`, e.g. a function object). -/
inductive PVal where
  | null
  | bool (b : Bool)
  | int (n : Int)
  | str (s : String)
  | list (xs : List PVal)
  | dict (xs : List (PVal × PVal))
  | obj (id : Nat)

mutual

/-- Decidable structural equality for `PVal` (Python `==` on these shapes). -/
def PVal.decEq : (a b : PVal) → Decidable (a = b)
  | .null, .null => .isTrue rfl
  | .bool x, .bool y =>
    if h : x = y then .isTrue (by rw [h]) else .isFalse (fun hh => h (PVal.bool.inj hh))
  | .int x, .int y =>
    if h : x = y then .isTrue (by rw [h]) else .isFalse (fun hh => h (PVal.int.inj hh))
  | .str x, .str y =>
    if h : x = y then .isTrue (by rw [h]) else .isFalse (fun hh => h (PVal.str.inj hh))
  | .obj x, .obj y =>
    if h : x = y then .isTrue (by rw [h]) else .isFalse (fun hh => h (PVal.obj.inj hh))
  | .list x, .list y =>
    match decEqPValList x y with
    | .isTrue h => .isTrue (by rw [h])
    | .isFalse h => .isFalse (fun hh => h (PVal.list.inj hh))
  | .dict x, .dict y =>
    match decEqPValPairList x y with
    | .isTrue h => .isTrue (by rw [h])
    | .isFalse h => .isFalse (fun hh => h (PVal.dict.inj hh))
  | .null, .bool _ => .isFalse (fun h => PVal.noConfusion h)
  | .null, .int _ => .isFalse (fun h => PVal.noConfusion h)
  | .null, .str _ => .isFalse (fun h => PVal.noConfusion h)
  | .null, .list _ => .isFalse (fun h => PVal.noConfusion h)
  | .null, .dict _ => .isFalse (fun h => PVal.noConfusion h)
  | .null, .obj _ => .isFalse (fun h => PVal.noConfusion h)
  | .bool _, .null => .isFalse (fun h => PVal.noConfusion h)
  | .bool _, .int _ => .isFalse (fun h => PVal.noConfusion h)
  | .bool _, .str _ => .isFalse (fun h => PVal.noConfusion h)
  | .bool _, .list _ => .isFalse (fun h => PVal.noConfusion h)
  | .bool _, .dict _ => .isFalse (fun h => PVal.noConfusion h)
  | .bool _, .obj _ => .isFalse (fun h => PVal.noConfusion h)
  | .int _, .null => .isFalse (fun h => PVal.noConfusion h)
  | .int _, .bool _ => .isFalse (fun h => PVal.noConfusion h)
  | .int _, .str _ => .isFalse (fun h => PVal.noConfusion h)
  | .int _, .list _ => .isFalse (fun h => PVal.noConfusion h)
  | .int _, .dict _ => .isFalse (fun h => PVal.noConfusion h)
  | .int _, .obj _ => .isFalse (fun h => PVal.noConfusion h)
  | .str _, .null => .isFalse (fun h => PVal.noConfusion h)
  | .str _, .bool _ => .isFalse (fun h => PVal.noConfusion h)
  | .str _, .int _ => .isFalse (fun h => PVal.noConfusion h)
  | .str _, .list _ => .isFalse (fun h => PVal.noConfusion h)
  | .str _, .dict _ => .isFalse (fun h => PVal.noConfusion h)
  | .str _, .obj _ => .isFalse (fun h => PVal.noConfusion h)
  | .list _, .null => .isFalse (fun h => PVal.noConfusion h)
  | .list _, .bool _ => .isFalse (fun h => PVal.noConfusion h)
  | .list _, .int _ => .isFalse (fun h => PVal.noConfusion h)
  | .list _, .str _ => .isFalse (fun h => PVal.noConfusion h)
  | .list _, .dict _ => .isFalse (fun h => PVal.noConfusion h)
  | .list _, .obj _ => .isFalse (fun h => PVal.noConfusion h)
  | .dict _, .null => .isFalse (fun h => PVal.noConfusion h)
  | .dict _, .bool _ => .isFalse (fun h => PVal.noConfusion h)
  | .dict _, .int _ => .isFalse (fun h => PVal.noConfusion h)
  | .dict _, .str _ => .isFalse (fun h => PVal.noConfusion h)
  | .dict _, .list _ => .isFalse (fun h => PVal.noConfusion h)
  | .dict _, .obj _ => .isFalse (fun h => PVal.noConfusion h)
  | .obj _, .null => .isFalse (fun h => PVal.noConfusion h)
  | .obj _, .bool _ => .isFalse (fun h => PVal.noConfusion h)
  | .obj _, .int _ => .isFalse (fun h => PVal.noConfusion h)
  | .obj _, .str _ => .isFalse (fun h => PVal.noConfusion h)
  | .obj _, .list _ => .isFalse (fun h => PVal.noConfusion h)
  | .obj _, .dict _ => .isFalse (fun h => PVal.noConfusion h)

/-- Decidable equality for lists of values. -/
def decEqPValList : (a b : List PVal) → Decidable (a = b)
  | [], [] => .isTrue rfl
  | [], _ :: _ => .isFalse (fun h => List.noConfusion h)
  | _ :: _, [] => .isFalse (fun h => List.noConfusion h)
  | x :: xs, y :: ys =>
    match PVal.decEq x y with
    | .isFalse h => .isFalse (fun hh => h (List.cons.inj hh).1)
    | .isTrue h1 =>
      match decEqPValList xs ys with
      | .isTrue h2 => .isTrue (by rw [h1, h2])
      | .isFalse h2 => .isFalse (fun hh => h2 (List.cons.inj hh).2)

/-- Decidable equality for key/value pair lists. -/
def decEqPValPairList : (a b : List (PVal × PVal)) → Decidable (a = b)
  | [], [] => .isTrue rfl
  | [], _ :: _ => .isFalse (fun h => List.noConfusion h)
  | _ :: _, [] => .isFalse (fun h => List.noConfusion h)
  | (k, v) :: xs, (k', v') :: ys =>
    match PVal.decEq k k' with
    | .isFalse h => .isFalse (fun hh => h (congrArg Prod.fst (List.cons.inj hh).1))
    | .isTrue h1 =>
      match PVal.decEq v v' with
      | .isFalse h => .isFalse (fun hh => h (congrArg Prod.snd (List.cons.inj hh).1))
      | .isTrue h2 =>
        match decEqPValPairList xs ys with
        | .isTrue h3 => .isTrue (by rw [h1, h2, h3])
        | .isFalse h3 => .isFalse (fun hh => h3 (List.cons.inj hh).2)

end

instance : DecidableEq PVal := PVal.decEq

/-- A value stored at top level of the `Database` dict: either a reference to a
namespace dict object living on the heap, or a plain non-dict value
(the corrupted case the autofixer drops). -/
inductive TVal where
  | ref (addr : Nat)
  | prim (v : PVal)
  deriving DecidableEq

/-- The heap of namespace dict objects; an address is an index into this list. -/
abbrev Heap := List (List (PVal × PVal))

/-- First-match lookup in an insertion-ordered association list. -/
def alookup {β : Type} (k : PVal) : List (PVal × β) → Option β
  | [] => none
  | (k', v) :: rest => if k' = k then some v else alookup k rest

/-- Python `d[k] = v`: replace in place if the key exists (keeping its
position), otherwise append at the end. -/
def aset {β : Type} (k : PVal) (v : β) : List (PVal × β) → List (PVal × β)
  | [] => [(k, v)]
  | (k', v') :: rest => if k' = k then (k, v) :: rest else (k', v') :: aset k v rest

/-- Python `del d[k]`: drop the entry with key `k`. -/
def adel {β : Type} (k : PVal) : List (PVal × β) → List (PVal × β)
  | [] => []
  | (k', v') :: rest => if k' = k then rest else (k', v') :: adel k rest

/-- Python `isinstance(x, (str, int))`.  `bool` is a subclass of `int` in
Python, so booleans pass this check. -/
def PVal.isStrOrInt : PVal → Bool
  | .str _ => true
  | .int _ => true
  | .bool _ => true
  | _ => false

/-- Python `isinstance(x, str)`. -/
def PVal.isStr : PVal → Bool
  | .str _ => true
  | _ => false

mutual

/-- Modelled from the spec: `utils.is_serializable` is imported from
`heroku/utils.py`, which is not part of the sources; §4.1 of the spec defines
it as "recursively true for primitives (string, number, boolean, null),
sequences of serializable values, and mappings whose keys are strings and
whose values are serializable". -/
def PVal.is_serializable : PVal → Bool
  | .null => true
  | .bool _ => true
  | .int _ => true
  | .str _ => true
  | .list xs => serList xs
  | .dict xs => serDict xs
  | .obj _ => false

/-- Every element of the list is serializable. -/
def serList : List PVal → Bool
  | [] => true
  | x :: xs => x.is_serializable && serList xs

/-- Every key is a string and every value is serializable. -/
def serDict : List (PVal × PVal) → Bool
  | [] => true
  | (k, v) :: xs => k.isStr && v.is_serializable && serDict xs

end

/-- The Python value a top-level entry denotes: dereference namespace
references through the heap (a dict object renders as its current contents). -/
def TVal.render (h : Heap) : TVal → PVal
  | .ref a => .dict (h.getD a [])
  | .prim v => v

/-- `isinstance(value, dict)` for a top-level entry. -/
def TVal.isRef : TVal → Bool
  | .ref _ => true
  | .prim _ => false

/-- `json.dumps(self, ...)`: the store rendered as the plain JSON document it
serializes to, with namespace objects dereferenced through the heap. -/
def renderStore (s : List (PVal × TVal)) (h : Heap) : List (PVal × PVal) :=
  s.map (fun kv => (kv.1, kv.2.render h))

/-- Serializability of the whole `Database` dict (the argument of
`utils.is_serializable(db)` in `process_db_autofix`), reading namespace
objects through the heap. -/
def storeSerializable (s : List (PVal × TVal)) (h : Heap) : Bool :=
  serDict (renderStore s h)

/-- The mutable state of a `Database` instance: the top-level dict itself
(`store`), the heap of namespace dict objects, `_revisions`,
`_next_revision_call`, whether `_redis` is set, whether `_saving_task` is
pending, and observables of the two backends (how many deferred flushes were
scheduled, the blobs actually flushed to redis, and the last blob written to
the local file). -/
structure DB where
  store : List (PVal × TVal)
  heap : Heap
  revisions : List (List (PVal × TVal))
  nextRevisionCall : Nat
  redis : Bool
  savingTask : Bool
  scheduled : Nat
  flushes : List (List (PVal × PVal))
  fileContents : Option (List (PVal × PVal))
  deriving DecidableEq

/-- How a call into the database returns: a normal boolean return, or one of
the exceptions the code can raise.  A raise is paired with the state at the
moment of the raise (Python does not roll back mutations already made). -/
inductive Outcome where
  | ok (b : Bool)
  /-- `RuntimeError("Non-serializable <arg>: ...")` from `set`. -/
  | validationError (arg : String)
  /-- `TypeError` from item assignment on a non-dict owner value. -/
  | typeError
  /-- `RuntimeError("Rewriting database to the last known good revision.")`. -/
  | corruptedError
  /-- `RuntimeError("Can't find revision to restore broken database from; db broken.")`. -/
  | unrecoverableError
  deriving DecidableEq

/-- One pass of the `for key, value in db.copy().items()` loop of
`process_db_autofix`; the first argument is the iteration copy, `db` and `h`
the dict and heap being mutated.  A non-str/int key is only warned about
(`continue`, no deletion); a non-dict value is deleted from the dict; a dict
value has its non-str/int subkeys deleted in place — a mutation of the shared
namespace object on the heap. -/
def autofixLoop : List (PVal × TVal) → List (PVal × TVal) → Heap → List (PVal × TVal) × Heap
  | [], db, h => (db, h)
  | (key, value) :: rest, db, h =>
    if ¬ key.isStrOrInt then
      autofixLoop rest db h
    else
      match value with
      | .prim _ => autofixLoop rest (adel key db) h
      | .ref a => autofixLoop rest db (h.set a ((h.getD a []).filter (fun kv => kv.1.isStrOrInt)))

/-- `Database.process_db_autofix`: returns `False` immediately (without
touching anything) when the dict is not serializable as a whole; otherwise
runs the repair loop and returns `True`. -/
def process_db_autofix (db : List (PVal × TVal)) (h : Heap) :
    List (PVal × TVal) × Heap × Bool :=
  if ¬ storeSerializable db h then (db, h, false)
  else
    let p := autofixLoop db db h
    (p.1, p.2, true)

/-- `while len(self._revisions) > 15: self._revisions.pop(0)`. -/
def trimRevisions (revs : List (List (PVal × TVal))) : List (List (PVal × TVal)) :=
  revs.drop (revs.length - 15)

/-- `rev = self._revisions.pop()` / `while not self.process_db_autofix(rev):
rev = self._revisions.pop()`, acting on the reversed revision list (most
recent first).  Returns the autofixed revision found (or `none` when the pops
raise `IndexError`), the revisions not popped (still reversed), and the heap
(autofixing a revision can touch namespace objects it shares). -/
def recoverAux : List (List (PVal × TVal)) → Heap →
    Option (List (PVal × TVal)) × List (List (PVal × TVal)) × Heap
  | [], h => (none, [], h)
  | rev :: rest, h =>
    match process_db_autofix rev h with
    | (rev', h', true) => (some rev', rest, h')
    | (_, h', false) => recoverAux rest h'

/-- The recovery half of `Database.save` (the body of the
`if not self.process_db_autofix(self):` branch, lines 181-192): pop revisions
until one is repaired successfully, replace the store's contents with it via
`self.clear(); self.update(**rev)` and raise; turn `IndexError` on exhaustion
into the unrecoverable `RuntimeError`. -/
def saveRecover (db : DB) : Outcome × DB :=
  match recoverAux db.revisions.reverse db.heap with
  | (some rev', rest, h') =>
    (.corruptedError, { db with store := rev', revisions := rest.reverse, heap := h' })
  | (none, _, h') =>
    (.unrecoverableError, { db with revisions := [], heap := h' })

/-- The persisting half of `Database.save` (lines 194-212): append a
*shallow* copy `dict(self)` of the store to the revision log if the 3-second
window has elapsed, trim the log to 15 entries (popping from the front), then
either schedule a deferred redis flush (only when none is pending) and return
`True` at once, or synchronously write the rendered store to the local
file. -/
def savePersist (db : DB) (now : Nat) : Outcome × DB :=
  let db2 : DB :=
    if db.nextRevisionCall < now then
      { db with revisions := db.revisions ++ [db.store], nextRevisionCall := now + 3 }
    else db
  let db3 : DB := { db2 with revisions := trimRevisions db2.revisions }
  if db3.redis then
    if db3.savingTask then (.ok true, db3)
    else (.ok true, { db3 with savingTask := true, scheduled := db3.scheduled + 1 })
  else
    (.ok true, { db3 with fileContents := some (renderStore db3.store db3.heap) })

/-- `Database.save`.  `now` stands for `time.time()` (the two clock reads in
one call are modelled as the same instant).  `process_db_autofix(self)` runs
first — note it can itself repair the live store in place and still report
success; only a non-serializable store takes the recovery path.  Python
exceptions are returned as `Outcome`s paired with the state at the raise. -/
def DB.save (db : DB) (now : Nat) : Outcome × DB :=
  match process_db_autofix db.store db.heap with
  | (store1, heap1, true) => savePersist { db with store := store1, heap := heap1 } now
  | (store1, heap1, false) => saveRecover { db with store := store1, heap := heap1 }

/-- The tail of `Database._redis_save` once the 5-second debounce sleep has
elapsed: `_redis_save_sync` publishes `json.dumps(self)` under the client id,
then `_saving_task` is reset to `None`.  With no redis handle the coroutine
returns `False` without flushing. -/
def DB.flushComplete (db : DB) : Bool × DB :=
  if db.redis then
    (true, { db with flushes := db.flushes ++ [renderStore db.store db.heap],
                     savingTask := false })
  else (false, db)

/-- `Database.get` exactly as written in the source:
`return self.get(owner, key, default)` — an unconditional call to itself.
`fuel` models Python's recursion limit; exhaustion (`none`) is the
`RecursionError` the real call raises. -/
def DB.get (db : DB) (owner key default : PVal) : Nat → Option PVal
  | 0 => none
  | fuel + 1 => db.get owner key default fuel

/-- `super().setdefault(owner, {})[key] = value`.  If the owner maps to a
dict object, that object is mutated in place on the heap.  If the owner is
absent, `setdefault` inserts a fresh empty dict object and the assignment
writes into it.  If the owner maps to a non-dict value, `setdefault` returns
that value and the item assignment raises — `none` here.  (The corner where
the corrupted owner value is a list and the key an in-range integer index is
not modelled.) -/
def storeWrite (db : DB) (owner key value : PVal) : Option DB :=
  match alookup owner db.store with
  | some (.ref a) =>
    some { db with heap := db.heap.set a (aset key value (db.heap.getD a [])) }
  | some (.prim _) => none
  | none =>
    some { db with store := db.store ++ [(owner, .ref db.heap.length)],
                   heap := db.heap ++ [[(key, value)]] }

/-- `Database.set`: validate owner, key and value with the serialization
guard, write into the store, then return what `save` returns. -/
def DB.set (db : DB) (owner key value : PVal) (now : Nat) : Outcome × DB :=
  if ¬ owner.is_serializable then (.validationError "owner", db)
  else if ¬ key.is_serializable then (.validationError "key", db)
  else if ¬ value.is_serializable then (.validationError "value", db)
  else
    match storeWrite db owner key value with
    | none => (.typeError, db)
    | some db' => db'.save now

/-- Python truthiness of a value. -/
def PVal.truthy : PVal → Bool
  | .null => false
  | .bool b => b
  | .int n => n != 0
  | .str s => s ≠ ""
  | .list xs => ¬ xs.isEmpty
  | .dict xs => ¬ xs.isEmpty
  | .obj _ => true

/-- `type(a) is type(b)` (in Python `bool` and `int` are distinct types). -/
def PVal.sameType : PVal → PVal → Bool
  | .null, .null => true
  | .bool _, .bool _ => true
  | .int _, .int _ => true
  | .str _, .str _ => true
  | .list _, .list _ => true
  | .dict _, .dict _ => true
  | .obj _, .obj _ => true
  | _, _ => false

/-- The observable result of `Database.pointer`.  The pointer classes come
from `heroku/pointers.py`, which is not among the sources, so a successful
construction is recorded only by which constructor was selected (the
`item_type` middlewares only wrap that same constructed pointer). -/
inductive PtrOutcome where
  | recursionError
  /-- `ValueError("Pointer type mismatch in database")`. -/
  | mismatch
  /-- `ValueError("Pointer for type ... not implemented")`. -/
  | notImplemented
  | ptrList
  | ptrDict
  | scalar (v : PVal)
  deriving DecidableEq

/-- `Database.pointer`.  Both reads go through `Database.get`; the
constructor table maps list to `PointerList`, dict to `PointerDict`, and any
hashable value to the identity passthrough, and the type-mismatch check runs
before the not-implemented check. -/
def DB.pointer (db : DB) (owner key default : PVal) (fuel : Nat) : PtrOutcome :=
  match db.get owner key default fuel with
  | none => .recursionError
  | some value =>
    let ctor : Option (PVal → PtrOutcome) :=
      match value with
      | .list _ => some (fun _ => .ptrList)
      | .dict _ => some (fun _ => .ptrDict)
      | _ => some (fun v => .scalar v)
    match db.get owner key .null fuel with
    | none => .recursionError
    | some current =>
      if current.truthy && ¬ current.sameType default then .mismatch
      else
        match ctor with
        | none => .notImplemented
        | some c => c value

/-- Whether a top-level value's namespace reference (if any) points inside a
heap of `n` objects. -/
def TVal.validRef (n : Nat) : TVal → Bool
  | .ref a => a < n
  | .prim _ => true

/-- The store invariant of §3 of the spec, together with the object-identity
facts states reachable through `set` enjoy: the structure is serializable,
every owner is bound to a dict object, owners are not duplicated, distinct
owners hold distinct namespace objects, and every reference is a live heap
address. -/
def DB.wf (db : DB) : Prop :=
  storeSerializable db.store db.heap = true
  ∧ (∀ kv ∈ db.store, kv.2.isRef = true)
  ∧ (db.store.map Prod.fst).Nodup
  ∧ (db.store.map Prod.snd).Nodup
  ∧ (∀ kv ∈ db.store, kv.2.validRef db.heap.length = true)

/-- The value stored at coordinate `(owner, key)`: the observation `get`
was evidently meant to implement (a direct two-level lookup). -/
def DB.lookup (db : DB) (owner key : PVal) : Option PVal :=
  match alookup owner db.store with
  | some (.ref a) => alookup key (db.heap.getD a [])
  | some (.prim _) => none
  | none => none

/-- The deletions the `process_db_autofix` repair loop performs, described
as a fold over the iteration copy. -/
def dropNonDicts (copy db : List (PVal × TVal)) : List (PVal × TVal) :=
  copy.foldl (fun acc kv => if kv.2.isRef then acc else adel kv.1 acc) db

/-! ## Concrete states used by counterexamples and witnesses -/

/-- A fresh, empty database with no backend. -/
def dbEmpty : DB := ⟨[], [], [], 0, false, false, 0, [], none⟩

/-- A corrupted live store `{"x": <function object>}` over a single logged
revision `{"a": 5}`; that revision is serializable, so the autofix check
accepts it — after first dropping the non-mapping owner `"a"`. -/
def dbCorrupt : DB :=
  ⟨[(.str "x", .prim (.obj 0))], [], [[(.str "a", .prim (.int 5))]], 0, false, false, 0, [], none⟩

/-- A store with a non-mapping owner `"a"` next to a dict-valued owner `"b"`. -/
def badStore : List (PVal × TVal) := [(.str "a", .prim (.int 5)), (.str "b", .ref 0)]

/-- A heap giving `"b"`'s namespace a non-serializable member. -/
def badHeap : Heap := [[(.str "k", .obj 0)]]

/-- A heap giving `"b"`'s namespace serializable contents. -/
def goodHeap : Heap := [[(.str "k", .int 1)]]

/-- A healthy store `{"a": {"k": 1}}` with no backend. -/
def dbShare : DB := ⟨[(.str "a", .ref 0)], [[(.str "k", .int 1)]], [], 0, false, false, 0, [], none⟩

/-- `dbShare` after a `save` that logs a snapshot of the store. -/
def dbSnap : DB := (dbShare.save 1).2

/-- `dbSnap` after `set("a", "k2", 2)` — an in-place mutation of owner
`"a"`'s namespace object, which the logged snapshot shares. -/
def dbMut : DB := (dbSnap.set (.str "a") (.str "k2") (.int 2) 2).2

/-- The i-th distinct owner name used by the 16-cycle revision scenario. -/
def ownerName (i : Nat) : PVal := .str (String.mk (List.replicate (i + 1) 'a'))

/-- One cycle of the revision scenario: `set` a value under a fresh owner at
time `1 + 4*i` (consecutive cycles are 4 > 3 time units apart, so each
`save` inside `set` logs a snapshot). -/
def scenStep (db : DB) (i : Nat) : DB :=
  (db.set (ownerName i) (.str "k") (.int i) (1 + 4 * i)).2

/-- The empty database after 16 snapshot-eligible save cycles. -/
def dbScen16 : DB := (List.range 16).foldl scenStep dbEmpty

/-- The first snapshot the scenario logs: the store right after the first
`set`. -/
def scenSnap1 : List (PVal × TVal) := [(ownerName 0, .ref 0)]

/-- The second snapshot the scenario logs. -/
def scenSnap2 : List (PVal × TVal) := [(ownerName 0, .ref 0), (ownerName 1, .ref 1)]

/-- A healthy database attached to the redis backend with no pending flush. -/
def dbRedis : DB := ⟨[(.str "a", .ref 0)], [[(.str "k", .int 1)]], [], 0, true, false, 0, [], none⟩

/-! ## Library lemmas about lists, association lists and serializability -/

theorem getD_set_ne {α : Type} (l : List α) (i j : Nat) (x d : α) (hij : i ≠ j) :
    (l.set i x).getD j d = l.getD j d := by
  induction l generalizing i j with
  | nil => simp
  | cons a rest ih =>
    cases i with
    | zero =>
      cases j with
      | zero => exact absurd rfl hij
      | succ j => simp
    | succ i =>
      cases j with
      | zero => simp
      | succ j => simpa using ih i j (by omega)

theorem set_getD_self {α : Type} (l : List α) (i : Nat) (d : α) :
    l.set i (l.getD i d) = l := by
  induction l generalizing i with
  | nil => simp
  | cons a rest ih =>
    cases i with
    | zero => simp
    | succ i => simpa using ih i

theorem getD_append_lt {α : Type} (l l2 : List α) (i : Nat) (d : α) (h : i < l.length) :
    (l ++ l2).getD i d = l.getD i d := by
  induction l generalizing i with
  | nil => simp at h
  | cons a rest ih =>
    cases i with
    | zero => simp
    | succ i => simpa using ih i (by simpa using h)

theorem alookup_aset_ne {β : Type} (k key : PVal) (v : β) (l : List (PVal × β)) (h : k ≠ key) :
    alookup k (aset key v l) = alookup k l := by
  induction l with
  | nil =>
    have hkk : ¬ key = k := fun hh => h hh.symm
    simp [aset, alookup, hkk]
  | cons p rest ih =>
    obtain ⟨k', v'⟩ := p
    by_cases hk : k' = key
    · subst hk
      have hkk : ¬ k' = k := fun hh => h hh.symm
      simp [aset, alookup, hkk]
    · by_cases hk2 : k' = k <;> simp [aset, alookup, hk, hk2, h, ih]

theorem alookup_mem {β : Type} (k : PVal) (v : β) (l : List (PVal × β))
    (h : alookup k l = some v) : (k, v) ∈ l := by
  induction l with
  | nil => simp [alookup] at h
  | cons p rest ih =>
    obtain ⟨k', v'⟩ := p
    by_cases hk : k' = k
    · subst hk
      simp [alookup] at h
      simp [h]
    · simp [alookup, hk] at h
      exact List.mem_cons_of_mem _ (ih h)

theorem alookup_eq_none (k : PVal) {β : Type} (l : List (PVal × β)) :
    alookup k l = none ↔ k ∉ l.map Prod.fst := by
  induction l with
  | nil => simp [alookup]
  | cons p rest ih =>
    obtain ⟨k', v'⟩ := p
    by_cases hk : k' = k
    · subst hk; simp [alookup]
    · have hkk : ¬ k = k' := fun hh => hk hh.symm
      simp [alookup, hk, ih, hkk]

theorem alookup_append_left {β : Type} (k : PVal) (l l2 : List (PVal × β)) (v : β)
    (h : alookup k l = some v) : alookup k (l ++ l2) = some v := by
  induction l with
  | nil => simp [alookup] at h
  | cons p rest ih =>
    obtain ⟨k', v'⟩ := p
    by_cases hk : k' = k <;> simp_all [alookup, hk]

theorem alookup_append_none {β : Type} (k : PVal) (l l2 : List (PVal × β))
    (h : alookup k l = none) : alookup k (l ++ l2) = alookup k l2 := by
  induction l with
  | nil => simp
  | cons p rest ih =>
    obtain ⟨k', v'⟩ := p
    by_cases hk : k' = k <;> simp_all [alookup, hk]

theorem serDict_append (xs ys : List (PVal × PVal)) :
    serDict (xs ++ ys) = (serDict xs && serDict ys) := by
  induction xs with
  | nil => simp [serDict]
  | cons p rest ih =>
    obtain ⟨k, v⟩ := p
    simp [serDict, ih, Bool.and_assoc]

theorem serDict_mem (xs : List (PVal × PVal)) (k v : PVal)
    (hser : serDict xs = true) (hmem : (k, v) ∈ xs) :
    k.isStr = true ∧ v.is_serializable = true := by
  induction xs with
  | nil => simp at hmem
  | cons p rest ih =>
    obtain ⟨k', v'⟩ := p
    simp [serDict] at hser
    obtain ⟨⟨h1, h2⟩, h3⟩ := hser
    rcases List.mem_cons.1 hmem with h | h
    · cases h; exact ⟨h1, h2⟩
    · exact ih h3 h

theorem serDict_aset (xs : List (PVal × PVal)) (key value : PVal)
    (hser : serDict xs = true) (hkey : key.isStr = true) (hval : value.is_serializable = true) :
    serDict (aset key value xs) = true := by
  induction xs with
  | nil => simp [aset, serDict, hkey, hval]
  | cons p rest ih =>
    obtain ⟨k', v'⟩ := p
    simp [serDict] at hser
    obtain ⟨⟨h1, h2⟩, h3⟩ := hser
    by_cases hk : k' = key
    · simp [aset, hk, serDict, hkey, hval, h3]
    · simp [aset, hk, serDict, h1, h2, ih h3]

theorem filter_keys_of_serDict (xs : List (PVal × PVal)) (hser : serDict xs = true) :
    xs.filter (fun p => p.1.isStrOrInt) = xs := by
  induction xs with
  | nil => simp
  | cons p rest ih =>
    obtain ⟨k, v⟩ := p
    simp [serDict] at hser
    obtain ⟨⟨h1, h2⟩, h3⟩ := hser
    have hk : k.isStrOrInt = true := by
      cases k <;> simp_all [PVal.isStr, PVal.isStrOrInt]
    simp [List.filter_cons, hk, ih h3]

/-! ## Characterization of `process_db_autofix` -/

theorem storeSerializable_cons (k : PVal) (v : TVal) (s : List (PVal × TVal)) (h : Heap) :
    storeSerializable ((k, v) :: s) h
      = (k.isStr && (v.render h).is_serializable && storeSerializable s h) := by
  simp [storeSerializable, renderStore, serDict, Bool.and_assoc]

theorem storeSerializable_mem (s : List (PVal × TVal)) (h : Heap)
    (hser : storeSerializable s h = true) (k : PVal) (v : TVal) (hmem : (k, v) ∈ s) :
    k.isStr = true ∧ (v.render h).is_serializable = true := by
  have : (k, v.render h) ∈ renderStore s h := by
    simp only [renderStore]
    exact List.mem_map_of_mem _ hmem
  exact serDict_mem _ _ _ hser this

theorem storeSerializable_ref (s : List (PVal × TVal)) (h : Heap) (k : PVal) (a : Nat)
    (hser : storeSerializable s h = true) (hmem : (k, TVal.ref a) ∈ s) :
    serDict (h.getD a []) = true := by
  have := (storeSerializable_mem s h hser k (.ref a) hmem).2
  simpa [TVal.render, PVal.is_serializable] using this

theorem autofixLoop_of_ser (copy : List (PVal × TVal)) (h : Heap)
    (hcopy : storeSerializable copy h = true) (db : List (PVal × TVal)) :
    autofixLoop copy db h = (dropNonDicts copy db, h) := by
  induction copy generalizing db with
  | nil => simp [autofixLoop, dropNonDicts]
  | cons p rest ih =>
    obtain ⟨k, v⟩ := p
    rw [storeSerializable_cons] at hcopy
    simp only [Bool.and_eq_true] at hcopy
    obtain ⟨⟨h1, h2⟩, h3⟩ := hcopy
    have hk : k.isStrOrInt = true := by
      cases k <;> simp_all [PVal.isStr, PVal.isStrOrInt]
    cases v with
    | prim p =>
      simp only [autofixLoop, hk, Bool.not_eq_true', dropNonDicts, List.foldl_cons]
      simpa [TVal.isRef, dropNonDicts] using ih h3 (adel k db)
    | ref a =>
      have hns : serDict (h.getD a []) = true := by
        simpa [TVal.render, PVal.is_serializable] using h2
      simp only [autofixLoop, hk, Bool.not_eq_true']
      rw [filter_keys_of_serDict _ hns, set_getD_self]
      simpa [TVal.isRef, dropNonDicts] using ih h3 db

theorem dropNonDicts_skip (copy : List (PVal × TVal)) (k : PVal) (v : TVal)
    (db : List (PVal × TVal)) (hk : k ∉ copy.map Prod.fst) :
    dropNonDicts copy ((k, v) :: db) = (k, v) :: dropNonDicts copy db := by
  induction copy generalizing db with
  | nil => simp [dropNonDicts]
  | cons p rest ih =>
    obtain ⟨k', v'⟩ := p
    simp only [List.map_cons, List.mem_cons] at hk
    push_neg at hk
    obtain ⟨hk1, hk2⟩ := hk
    cases v' with
    | ref a => simpa [dropNonDicts, TVal.isRef] using ih db hk2
    | prim p =>
      have : adel k' ((k, v) :: db) = (k, v) :: adel k' db := by
        simp [adel, hk1]
      simpa [dropNonDicts, TVal.isRef, this] using ih (adel k' db) hk2

theorem dropNonDicts_self (d : List (PVal × TVal)) (hnodup : (d.map Prod.fst).Nodup) :
    dropNonDicts d d = d.filter (fun kv => kv.2.isRef) := by
  induction d with
  | nil => simp [dropNonDicts]
  | cons p rest ih =>
    obtain ⟨k, v⟩ := p
    simp only [List.map_cons, List.nodup_cons] at hnodup
    obtain ⟨hk, hrest⟩ := hnodup
    cases v with
    | ref a =>
      have step : dropNonDicts ((k, TVal.ref a) :: rest) ((k, TVal.ref a) :: rest)
          = dropNonDicts rest ((k, TVal.ref a) :: rest) := by
        simp [dropNonDicts, TVal.isRef]
      rw [step, dropNonDicts_skip rest k (.ref a) rest hk, ih hrest]
      simp [List.filter_cons, TVal.isRef]
    | prim p =>
      have step : dropNonDicts ((k, TVal.prim p) :: rest) ((k, TVal.prim p) :: rest)
          = dropNonDicts rest rest := by
        simp [dropNonDicts, TVal.isRef, adel]
      rw [step, ih hrest]
      simp [List.filter_cons, TVal.isRef]

theorem process_db_autofix_of_bad (d : List (PVal × TVal)) (h : Heap)
    (hser : storeSerializable d h = false) :
    process_db_autofix d h = (d, h, false) := by
  simp [process_db_autofix, hser]

theorem process_db_autofix_of_ser (d : List (PVal × TVal)) (h : Heap)
    (hnodup : (d.map Prod.fst).Nodup) (hser : storeSerializable d h = true) :
    process_db_autofix d h = (d.filter (fun kv => kv.2.isRef), h, true) := by
  simp [process_db_autofix, hser, autofixLoop_of_ser d h hser d, dropNonDicts_self d hnodup]

theorem process_db_autofix_id (d : List (PVal × TVal)) (h : Heap)
    (hnodup : (d.map Prod.fst).Nodup) (hser : storeSerializable d h = true)
    (href : ∀ kv ∈ d, kv.2.isRef = true) :
    process_db_autofix d h = (d, h, true) := by
  rw [process_db_autofix_of_ser d h hnodup hser, List.filter_eq_self.2 href]

/-! ## The recovery loop and the two halves of `save` -/

theorem recoverAux_all_bad (l : List (List (PVal × TVal))) (h : Heap)
    (hall : ∀ x ∈ l, storeSerializable x h = false) :
    recoverAux l h = (none, [], h) := by
  induction l with
  | nil => simp [recoverAux]
  | cons rev rest ih =>
    have hbad := hall rev (List.mem_cons_self _ _)
    simp [recoverAux, process_db_autofix_of_bad _ _ hbad,
      ih (fun x hx => hall x (List.mem_cons_of_mem _ hx))]

theorem recoverAux_found (pre : List (List (PVal × TVal))) (r : List (PVal × TVal))
    (post : List (List (PVal × TVal))) (h : Heap)
    (hpre : ∀ x ∈ pre, storeSerializable x h = false)
    (hr : storeSerializable r h = true) :
    recoverAux (pre ++ r :: post) h
      = (some (autofixLoop r r h).1, post, (autofixLoop r r h).2) := by
  induction pre with
  | nil => simp [recoverAux, process_db_autofix, hr]
  | cons x rest ih =>
    have hbad := hpre x (List.mem_cons_self _ _)
    simp [recoverAux, process_db_autofix_of_bad _ _ hbad,
      ih (fun y hy => hpre y (List.mem_cons_of_mem _ hy))]

theorem save_of_bad (db : DB) (now : Nat)
    (hser : storeSerializable db.store db.heap = false) :
    db.save now = saveRecover db := by
  simp [DB.save, process_db_autofix_of_bad _ _ hser]

theorem save_of_ser (db : DB) (now : Nat)
    (hnodup : (db.store.map Prod.fst).Nodup)
    (hser : storeSerializable db.store db.heap = true) :
    db.save now = savePersist { db with store := db.store.filter (fun kv => kv.2.isRef) } now := by
  simp [DB.save, process_db_autofix_of_ser _ _ hnodup hser]

theorem save_of_id (db : DB) (now : Nat)
    (hnodup : (db.store.map Prod.fst).Nodup)
    (hser : storeSerializable db.store db.heap = true)
    (href : ∀ kv ∈ db.store, kv.2.isRef = true) :
    db.save now = savePersist db now := by
  simp [DB.save, process_db_autofix_id _ _ hnodup hser href]

theorem trimRevisions_length (l : List (List (PVal × TVal))) :
    (trimRevisions l).length ≤ 15 := by
  simp only [trimRevisions, List.length_drop]
  omega

theorem trimRevisions_eq_self (l : List (List (PVal × TVal))) (h : l.length ≤ 15) :
    trimRevisions l = l := by
  simp [trimRevisions, Nat.sub_eq_zero_of_le h]

theorem savePersist_fields (db : DB) (now : Nat) :
    (savePersist db now).2.store = db.store
    ∧ (savePersist db now).2.heap = db.heap
    ∧ (savePersist db now).2.flushes = db.flushes
    ∧ (savePersist db now).2.redis = db.redis
    ∧ (savePersist db now).2.savingTask = (db.savingTask || db.redis)
    ∧ (savePersist db now).1 = .ok true := by
  simp only [savePersist]
  split_ifs <;> simp_all

theorem savePersist_revisions (db : DB) (now : Nat) :
    (savePersist db now).2.revisions
      = trimRevisions
          (if db.nextRevisionCall < now then db.revisions ++ [db.store] else db.revisions) := by
  simp only [savePersist]
  split_ifs <;> simp_all

theorem savePersist_next (db : DB) (now : Nat) :
    (savePersist db now).2.nextRevisionCall
      = if db.nextRevisionCall < now then now + 3 else db.nextRevisionCall := by
  simp only [savePersist]
  split_ifs <;> simp_all

theorem savePersist_scheduled (db : DB) (now : Nat) :
    (savePersist db now).2.scheduled
      = db.scheduled + (if db.redis && !db.savingTask then 1 else 0) := by
  simp only [savePersist]
  split_ifs <;> simp_all

/-! ## The broken `get` -/

theorem get_eq_none (db : DB) (owner key d : PVal) (fuel : Nat) :
    db.get owner key d fuel = none := by
  induction fuel with
  | zero => rfl
  | succ n ih => simpa [DB.get] using ih

/-! ## Claim theorems -/

/-- **C1.** The claim says `set(owner, key, value)` followed by `get` at the
same coordinates returns a value deep-equal to `value`.  The code's `get`
(database.py lines 227-228) is `return self.get(owner, key, default)` — an
unconditional call to itself — so after any `set` whatsoever, `get` at the
same coordinates exhausts every recursion budget (`RecursionError`) instead
of returning the stored value.  The spec's own design notes flag this
self-call as a defect, so the code, not the claim, is wrong. -/
theorem set_then_get_never_returns (db : DB) (owner key value dflt : PVal) (now fuel : Nat) :
    ((db.set owner key value now).2).get owner key dflt fuel = none :=
  get_eq_none _ _ _ _ _

/-- **C8.** The claim says `pointer` over a stored value whose type differs
from the default's raises the type-mismatch `ValueError`.  But `pointer`'s
very first step is `value = self.get(owner, key, default)`, and `get` is the
unconditional self-call of lines 227-228, so every `pointer` call dies in
`RecursionError` before the mismatch check can run, whatever the stored
value and default are. -/
theorem pointer_always_recursion_error (db : DB) (owner key dflt : PVal) (fuel : Nat) :
    db.pointer owner key dflt fuel = .recursionError := by
  simp [DB.pointer, get_eq_none]

/-- **C4.** `set` with a non-serializable owner, key or value raises the
validation error naming the offending argument (owner checked first, then
key, then value) and returns with the database state completely unchanged:
no namespace is created or modified and `save` is not reached. -/
theorem set_validation_error_leaves_store (db : DB) (owner key value : PVal) (now : Nat) :
    (owner.is_serializable = false →
      db.set owner key value now = (.validationError "owner", db))
    ∧ (owner.is_serializable = true → key.is_serializable = false →
      db.set owner key value now = (.validationError "key", db))
    ∧ (owner.is_serializable = true → key.is_serializable = true →
        value.is_serializable = false →
      db.set owner key value now = (.validationError "value", db)) := by
  refine ⟨fun h1 => ?_, fun h1 h2 => ?_, fun h1 h2 h3 => ?_⟩ <;> simp [DB.set, *]

/-- Witness for C4: storing a function object under `("o", "k")` in the
empty database raises the validation error naming `value` and leaves the
state untouched. -/
theorem set_validation_error_leaves_store_witness :
    dbEmpty.set (.str "o") (.str "k") (.obj 0) 5 = (.validationError "value", dbEmpty) :=
  (set_validation_error_leaves_store dbEmpty (.str "o") (.str "k") (.obj 0) 5).2.2
    rfl rfl rfl

/-- **C2 counterexample.** On `dbCorrupt` the single logged revision
`{"a": 5}` passes the autofix check (it returns `True`), yet `save` leaves
the store `{}` — the *repaired* contents, with the non-mapping owner `"a"`
dropped — not the revision's contents exactly, contradicting the claim's
"replaces the live store contents exactly with the contents of the most
recent passing revision". -/
theorem save_restore_not_exact :
    (process_db_autofix [(.str "a", .prim (.int 5))] dbCorrupt.heap).2.2 = true
    ∧ (dbCorrupt.save 1).1 = .corruptedError
    ∧ (dbCorrupt.save 1).2.store = []
    ∧ (dbCorrupt.save 1).2.store ≠ [(.str "a", .prim (.int 5))] := by
  decide

/-- **C2 (amended).** If the store fails the autofix check at the start of
`save`, then: (a) whenever the log decomposes as `older ++ r :: newer` with
every revision in `newer` failing the check and `r` passing it, `save`
raises the loud recoverable error, replaces the store contents with `r`'s
contents *as repaired by the check* (non-mapping owners dropped), and leaves
exactly `older` in the log; (b) if every revision fails the check, `save`
raises the unrecoverable error and persists nothing to either backend. -/
theorem save_recovery_restores_autofixed_revision (db : DB) (now : Nat)
    (hbad : storeSerializable db.store db.heap = false) :
    (∀ older r newer, db.revisions = older ++ r :: newer →
      (∀ x ∈ newer, storeSerializable x db.heap = false) →
      storeSerializable r db.heap = true →
      (db.save now).1 = .corruptedError
      ∧ (db.save now).2.store = (process_db_autofix r db.heap).1
      ∧ (db.save now).2.revisions = older)
    ∧ ((∀ x ∈ db.revisions, storeSerializable x db.heap = false) →
      (db.save now).1 = .unrecoverableError
      ∧ (db.save now).2.store = db.store
      ∧ (db.save now).2.revisions = []
      ∧ (db.save now).2.flushes = db.flushes
      ∧ (db.save now).2.fileContents = db.fileContents) := by
  rw [save_of_bad db now hbad]
  constructor
  · intro older r newer hrev hnew hr
    have hrev2 : db.revisions.reverse = newer.reverse ++ r :: older.reverse := by
      rw [hrev]; simp
    have hpre : ∀ x ∈ newer.reverse, storeSerializable x db.heap = false :=
      fun x hx => hnew x (List.mem_reverse.1 hx)
    simp only [saveRecover, hrev2, recoverAux_found _ _ _ _ hpre hr]
    simp [process_db_autofix, hr]
  · intro hall
    have hall2 : ∀ x ∈ db.revisions.reverse, storeSerializable x db.heap = false :=
      fun x hx => hall x (List.mem_reverse.1 hx)
    simp [saveRecover, recoverAux_all_bad _ _ hall2]

/-- Witness for C2 at `dbCorrupt`: the recovery path fires, restores the
repaired revision contents and pops the used revision. -/
theorem save_recovery_restores_autofixed_revision_witness :
    (dbCorrupt.save 1).1 = .corruptedError
    ∧ (dbCorrupt.save 1).2.store
        = (process_db_autofix [(.str "a", .prim (.int 5))] dbCorrupt.heap).1
    ∧ (dbCorrupt.save 1).2.revisions = [] :=
  (save_recovery_restores_autofixed_revision dbCorrupt 1 (by decide)).1
    [] [(.str "a", .prim (.int 5))] [] (by decide) (by simp) (by decide)

/-- **C9.** Recovery inside `save` permanently shrinks the revision log:
with the log decomposed as `older ++ r :: newer`, all of `newer` failing the
autofix check and `r` passing it, every revision of `newer` and `r` itself
are popped, the loud error is raised before any snapshot could be appended,
and the log ends as exactly `older` — the restored revision is gone from it
for good. -/
theorem recovery_pops_are_permanent (db : DB) (now : Nat)
    (older newer : List (List (PVal × TVal))) (r : List (PVal × TVal))
    (hbad : storeSerializable db.store db.heap = false)
    (hrev : db.revisions = older ++ r :: newer)
    (hnew : ∀ x ∈ newer, storeSerializable x db.heap = false)
    (hr : storeSerializable r db.heap = true) :
    (db.save now).2.revisions = older
    ∧ (db.save now).2.revisions.length + newer.length + 1 = db.revisions.length
    ∧ (db.save now).1 = .corruptedError := by
  rw [save_of_bad db now hbad]
  have hrev2 : db.revisions.reverse = newer.reverse ++ r :: older.reverse := by
    rw [hrev]; simp
  have hpre : ∀ x ∈ newer.reverse, storeSerializable x db.heap = false :=
    fun x hx => hnew x (List.mem_reverse.1 hx)
  simp only [saveRecover, hrev2, recoverAux_found _ _ _ _ hpre hr]
  refine ⟨by simp, ?_, by simp⟩
  simp [hrev]
  omega

/-- Witness for C9: two logged revisions, the newer one non-serializable,
the older one clean; recovery pops both and leaves the log empty. -/
theorem recovery_pops_are_permanent_witness :
    ((DB.mk [(.str "x", .prim (.obj 1))] [[(.str "k", .int 1)]]
        [[(.str "g", .ref 0)], [(.str "bad", .prim (.obj 2))]] 0 false false 0 [] none).save 4).2.revisions = []
    ∧ ((DB.mk [(.str "x", .prim (.obj 1))] [[(.str "k", .int 1)]]
        [[(.str "g", .ref 0)], [(.str "bad", .prim (.obj 2))]] 0 false false 0 [] none).save 4).1
        = .corruptedError := by
  have h := recovery_pops_are_permanent
    (DB.mk [(.str "x", .prim (.obj 1))] [[(.str "k", .int 1)]]
      [[(.str "g", .ref 0)], [(.str "bad", .prim (.obj 2))]] 0 false false 0 [] none) 4
    [] [[(.str "bad", .prim (.obj 2))]] [(.str "g", .ref 0)]
    (by decide) (by decide) (by decide) (by decide)
  exact ⟨h.1, h.2.2⟩

/-- **C5 counterexample.** On a store holding both a non-mapping owner `"a"`
and (inside owner `"b"`'s namespace) a non-serializable leaf,
`process_db_autofix` returns `False` and leaves the store completely
untouched — the non-mapping owner `"a"` is *not* dropped, contradicting the
claim that the drops happen in every case where the clean-store condition
fails. -/
theorem autofix_false_leaves_store_untouched :
    storeSerializable badStore badHeap = false
    ∧ process_db_autofix badStore badHeap = (badStore, badHeap, false)
    ∧ alookup (.str "a") badStore = some (.prim (.int 5)) := by
  decide

/-- **C5 (amended).** `process_db_autofix` returns `False` — with the store
completely untouched, nothing dropped — exactly when the top-level structure
is not serializable.  When the structure is serializable it returns `True`
after dropping every owner whose value is not a dict object; since a
serializable mapping has only string keys, no subkey is ever dropped and
every namespace object is left unchanged, and a store whose owners are all
dict objects is left untouched entirely. -/
theorem autofix_characterization (d : List (PVal × TVal)) (h : Heap)
    (hnodup : (d.map Prod.fst).Nodup) :
    (storeSerializable d h = false → process_db_autofix d h = (d, h, false))
    ∧ (storeSerializable d h = true →
      process_db_autofix d h = (d.filter (fun kv => kv.2.isRef), h, true))
    ∧ (storeSerializable d h = true → (∀ kv ∈ d, kv.2.isRef = true) →
      process_db_autofix d h = (d, h, true)) :=
  ⟨process_db_autofix_of_bad d h, process_db_autofix_of_ser d h hnodup,
   process_db_autofix_id d h hnodup⟩

/-- Witness for C5: with serializable contents, the non-mapping owner `"a"`
is dropped, the dict-valued owner `"b"` survives, and the heap is unchanged. -/
theorem autofix_characterization_witness :
    process_db_autofix badStore goodHeap = ([(.str "b", .ref 0)], goodHeap, true) := by
  have h := (autofix_characterization badStore goodHeap (by decide)).2.1 (by decide)
  rw [h]; decide

theorem getD_append_length {α : Type} (l : List α) (x d : α) :
    (l ++ [x]).getD l.length d = x := by
  induction l with
  | nil => simp
  | cons a rest ih => simp [ih]

theorem renderStore_heap_append (s : List (PVal × TVal)) (h h2 : Heap)
    (hv : ∀ kv ∈ s, kv.2.validRef h.length = true) :
    renderStore s (h ++ h2) = renderStore s h := by
  induction s with
  | nil => rfl
  | cons p rest ih =>
    obtain ⟨k, v⟩ := p
    have hv1 := hv (k, v) (List.mem_cons_self _ _)
    have ihr := ih (fun kv hkv => hv kv (List.mem_cons_of_mem _ hkv))
    simp only [renderStore, List.map_cons] at ihr ⊢
    rw [ihr]
    cases v with
    | prim q => rfl
    | ref a =>
      have ha : a < h.length := by simpa [TVal.validRef] using hv1
      simp only [TVal.render]
      rw [getD_append_lt _ _ _ _ ha]

theorem renderStore_append (s1 s2 : List (PVal × TVal)) (h : Heap) :
    renderStore (s1 ++ s2) h = renderStore s1 h ++ renderStore s2 h := by
  simp [renderStore]

theorem storeSerializable_append (s1 s2 : List (PVal × TVal)) (h : Heap) :
    storeSerializable (s1 ++ s2) h
      = (storeSerializable s1 h && storeSerializable s2 h) := by
  simp [storeSerializable, renderStore_append, serDict_append]

theorem storeSerializable_heap_append (s : List (PVal × TVal)) (h h2 : Heap)
    (hv : ∀ kv ∈ s, kv.2.validRef h.length = true) :
    storeSerializable s (h ++ h2) = storeSerializable s h := by
  simp [storeSerializable, renderStore_heap_append s h h2 hv]

/-- **C3 counterexample.** `save` appends `dict(self)` — a *shallow* copy:
the snapshot shares the owner namespace objects with the live store.  After
`dbShare`'s snapshot is logged, `set("a", "k2", 2)` mutates owner `"a"`'s
namespace object in place, and the contents of the already-logged revision
change with it — the claim says no subsequent mutation can change them. -/
theorem revision_changed_by_inplace_set :
    dbSnap.revisions = [[(.str "a", .ref 0)]]
    ∧ dbMut.revisions = [[(.str "a", .ref 0)]]
    ∧ renderStore [(.str "a", .ref 0)] dbSnap.heap = [(.str "a", .dict [(.str "k", .int 1)])]
    ∧ renderStore [(.str "a", .ref 0)] dbMut.heap
        = [(.str "a", .dict [(.str "k", .int 1), (.str "k2", .int 2)])]
    ∧ renderStore [(.str "a", .ref 0)] dbMut.heap
        ≠ renderStore [(.str "a", .ref 0)] dbSnap.heap := by
  decide

/-- **C3 (amended).** Revision snapshots are shallow copies of the top-level
mapping only: a later `set` that creates a *new* owner (a purely top-level
mutation, allocating a fresh namespace object) leaves the contents of any
logged revision unchanged; only an in-place mutation of a namespace object
the revision shares with the live store — the counterexample — can leak into
the log. -/
theorem revision_unchanged_by_fresh_owner_set (db : DB) (so ko : String) (value : PVal)
    (now : Nat) (r : List (PVal × TVal))
    (hwf : db.wf)
    (_hrin : r ∈ db.revisions)
    (hfresh : alookup (.str so) db.store = none)
    (hval : value.is_serializable = true)
    (hrefs : ∀ kv ∈ r, kv.2.validRef db.heap.length = true) :
    renderStore r ((db.set (.str so) (.str ko) value now).2).heap
      = renderStore r db.heap := by
  obtain ⟨hser, href, hnk, hnr, hvr⟩ := hwf
  have hwrite : storeWrite db (.str so) (.str ko) value
      = some { db with store := db.store ++ [(.str so, .ref db.heap.length)],
                       heap := db.heap ++ [[(.str ko, value)]] } := by
    simp [storeWrite, hfresh]
  set db' : DB := { db with store := db.store ++ [(.str so, .ref db.heap.length)],
                            heap := db.heap ++ [[(.str ko, value)]] }
  have hset : db.set (.str so) (.str ko) value now = db'.save now := by
    simp [DB.set, PVal.is_serializable, hval, hwrite]
  have hser' : storeSerializable db'.store db'.heap = true := by
    show storeSerializable (db.store ++ [(.str so, .ref db.heap.length)])
      (db.heap ++ [[(.str ko, value)]]) = true
    rw [storeSerializable_append, storeSerializable_heap_append _ _ _ hvr, hser]
    simp [storeSerializable, renderStore, TVal.render, getD_append_length, serDict,
      PVal.isStr, PVal.is_serializable, hval]
  have href' : ∀ kv ∈ db'.store, kv.2.isRef = true := by
    intro kv hkv
    rcases List.mem_append.1 hkv with hmem | hmem
    · exact href kv hmem
    · simp only [List.mem_singleton] at hmem
      rw [hmem]
      rfl
  have hnk' : (db'.store.map Prod.fst).Nodup := by
    have hnotin : PVal.str so ∉ db.store.map Prod.fst := (alookup_eq_none _ _).1 hfresh
    show ((db.store ++ [(PVal.str so, TVal.ref db.heap.length)]).map Prod.fst).Nodup
    simp only [List.map_append, List.map_cons, List.map_nil]
    rw [List.nodup_append]
    refine ⟨hnk, List.nodup_singleton _, ?_⟩
    intro x hx hs
    rw [List.mem_singleton] at hs
    exact hnotin (hs ▸ hx)
  have hsave : db'.save now = savePersist db' now := save_of_id _ _ hnk' hser' href'
  rw [hset, hsave, (savePersist_fields db' now).2.1]
  exact renderStore_heap_append r db.heap [[(.str ko, value)]] hrefs

/-- Witness for C3 (amended): after `dbSnap`'s snapshot, creating the fresh
owner `"b"` leaves the logged revision's contents untouched. -/
theorem revision_unchanged_by_fresh_owner_set_witness :
    renderStore [(.str "a", .ref 0)] ((dbSnap.set (.str "b") (.str "k") (.int 9) 2).2).heap
      = renderStore [(.str "a", .ref 0)] dbSnap.heap :=
  revision_unchanged_by_fresh_owner_set dbSnap "b" "k" (.int 9) 2 [(.str "a", .ref 0)]
    (by constructor
        · decide
        · refine ⟨by decide, by decide, by decide, by decide⟩)
    (by decide) (by decide) (by decide) (by decide)

theorem process_db_autofix_raw (d : List (PVal × TVal)) (h : Heap)
    (hser : storeSerializable d h = true) :
    process_db_autofix d h = ((autofixLoop d d h).1, (autofixLoop d d h).2, true) := by
  simp [process_db_autofix, hser]

theorem save_of_ser_raw (db : DB) (now : Nat)
    (hser : storeSerializable db.store db.heap = true) :
    db.save now
      = savePersist { db with store := (autofixLoop db.store db.store db.heap).1,
                              heap := (autofixLoop db.store db.store db.heap).2 } now := by
  simp [DB.save, process_db_autofix_raw _ _ hser]

theorem recoverAux_rest_le (l : List (List (PVal × TVal))) (h : Heap) :
    (recoverAux l h).2.1.length ≤ l.length := by
  induction l generalizing h with
  | nil => simp [recoverAux]
  | cons rev rest ih =>
    simp only [recoverAux]
    rcases hp : process_db_autofix rev h with ⟨r1, h1, flag⟩
    cases flag
    · simpa using le_trans (ih h1) (Nat.le_succ _)
    · simp

theorem saveRecover_revisions_le (db : DB) :
    (saveRecover db).2.revisions.length ≤ db.revisions.length := by
  unfold saveRecover
  have hle := recoverAux_rest_le db.revisions.reverse db.heap
  rcases hrec : recoverAux db.revisions.reverse db.heap with ⟨found, rest, h2⟩
  rw [hrec] at hle
  simp only [List.length_reverse] at hle
  cases found with
  | some r => simpa using hle
  | none => simp

/-- **C6.** (a) Starting from a log within its bound, every `save` — on
either path — leaves at most 15 revisions.  (b) A second `save` issued at
any time not beyond the `_next_revision_call` deadline set by the first
appends no snapshot: the log is unchanged, so snapshots happen at most once
per 3-second window.  (c) In the concrete 16-cycle scenario (16 writes under
fresh owners at times 1, 5, 9, …, 61, each ≥ 3 apart and each logging a
snapshot), the log ends with exactly 15 entries, its oldest entry is the
*second* snapshot, and the first snapshot taken — which the first cycle had
logged — has been evicted. -/
theorem revision_log_bound_window_fifo (db : DB) (now now2 : Nat) :
    (db.revisions.length ≤ 15 → ((db.save now).2).revisions.length ≤ 15)
    ∧ (db.wf → now2 ≤ (db.save now).2.nextRevisionCall →
        (((db.save now).2).save now2).2.revisions = (db.save now).2.revisions)
    ∧ (dbScen16.revisions.length = 15
       ∧ dbScen16.revisions.head? = some scenSnap2
       ∧ scenSnap1 ∉ dbScen16.revisions
       ∧ (dbEmpty.set (ownerName 0) (.str "k") (.int 0) 1).2.revisions = [scenSnap1]) := by
  refine ⟨?_, ?_, ?_⟩
  · intro hlen
    by_cases hser : storeSerializable db.store db.heap = true
    · rw [save_of_ser_raw db now hser, savePersist_revisions]
      exact trimRevisions_length _
    · have hbad : storeSerializable db.store db.heap = false := by
        revert hser; cases storeSerializable db.store db.heap <;> simp
      rw [save_of_bad db now hbad]
      exact le_trans (saveRecover_revisions_le db) hlen
  · intro hwf hnow2
    obtain ⟨hser, href, hnk, hnr, hvr⟩ := hwf
    have h1 : db.save now = savePersist db now := save_of_id _ _ hnk hser href
    rw [h1] at hnow2 ⊢
    have hstore : (savePersist db now).2.store = db.store := (savePersist_fields db now).1
    have hheap : (savePersist db now).2.heap = db.heap := (savePersist_fields db now).2.1
    have hser1 : storeSerializable (savePersist db now).2.store (savePersist db now).2.heap
        = true := by rw [hstore, hheap]; exact hser
    have hnk1 : ((savePersist db now).2.store.map Prod.fst).Nodup := by
      rw [hstore]; exact hnk
    have href1 : ∀ kv ∈ (savePersist db now).2.store, kv.2.isRef = true := by
      rw [hstore]; exact href
    rw [save_of_id _ _ hnk1 hser1 href1, savePersist_revisions,
      if_neg (by omega : ¬ (savePersist db now).2.nextRevisionCall < now2)]
    apply trimRevisions_eq_self
    rw [savePersist_revisions]
    exact trimRevisions_length _
  · exact ⟨by decide, by decide, by decide, by decide⟩

/-- Witness for C6 at a concrete input: a save on the empty database keeps
the log bounded, and a second save inside the window leaves it unchanged. -/
theorem revision_log_bound_window_fifo_witness :
    ((dbEmpty.save 1).2).revisions.length ≤ 15
    ∧ (((dbEmpty.save 1).2).save 2).2.revisions = (dbEmpty.save 1).2.revisions := by
  have h := revision_log_bound_window_fifo dbEmpty 1 2
  exact ⟨h.1 (by decide), h.2.1 (by refine ⟨by decide, by decide, by decide, by decide, by decide⟩) (by decide)⟩

/-- **C7.** With the redis backend active, the store healthy and no flush
pending: `save` returns `True` immediately and flushes nothing itself; it
sets the pending marker and schedules exactly one deferred flush; a second
`save` issued while the flush is still pending (before the debounce sleep
has fired) schedules nothing more, so two saves inside the window produce
exactly one scheduled flush; and when the deferred flush finally fires it
writes the whole rendered store to the backend once and clears the pending
marker. -/
theorem redis_save_coalesced (db : DB) (now now2 : Nat)
    (hwf : db.wf) (hredis : db.redis = true) (hidle : db.savingTask = false) :
    (db.save now).1 = .ok true
    ∧ (db.save now).2.flushes = db.flushes
    ∧ (db.save now).2.savingTask = true
    ∧ (db.save now).2.scheduled = db.scheduled + 1
    ∧ (((db.save now).2).save now2).1 = .ok true
    ∧ (((db.save now).2).save now2).2.scheduled = db.scheduled + 1
    ∧ (((db.save now).2).save now2).2.flushes = db.flushes
    ∧ ((((db.save now).2).save now2).2.flushComplete).2.savingTask = false
    ∧ ((((db.save now).2).save now2).2.flushComplete).2.flushes
        = db.flushes ++ [renderStore db.store db.heap] := by
  obtain ⟨hser, href, hnk, hnr, hvr⟩ := hwf
  have h1 : db.save now = savePersist db now := save_of_id _ _ hnk hser href
  obtain ⟨f1store, f1heap, f1flush, f1redis, f1task, f1out⟩ := savePersist_fields db now
  have hser1 : storeSerializable (savePersist db now).2.store (savePersist db now).2.heap
      = true := by rw [f1store, f1heap]; exact hser
  have hnk1 : ((savePersist db now).2.store.map Prod.fst).Nodup := by rw [f1store]; exact hnk
  have href1 : ∀ kv ∈ (savePersist db now).2.store, kv.2.isRef = true := by
    rw [f1store]; exact href
  have h2 : (savePersist db now).2.save now2 = savePersist (savePersist db now).2 now2 :=
    save_of_id _ _ hnk1 hser1 href1
  obtain ⟨f2store, f2heap, f2flush, f2redis, f2task, f2out⟩ :=
    savePersist_fields (savePersist db now).2 now2
  have hsched1 : (savePersist db now).2.scheduled = db.scheduled + 1 := by
    rw [savePersist_scheduled, hredis, hidle]
    simp
  have htask1 : (savePersist db now).2.savingTask = true := by
    rw [f1task, hredis, hidle]
    simp
  have hsched2 : (savePersist (savePersist db now).2 now2).2.scheduled = db.scheduled + 1 := by
    rw [savePersist_scheduled, htask1, hsched1]
    simp
  have hflush2 : (savePersist (savePersist db now).2 now2).2.flushes = db.flushes := by
    rw [f2flush, f1flush]
  have hredis2 : (savePersist (savePersist db now).2 now2).2.redis = true := by
    rw [f2redis, f1redis, hredis]
  rw [h1, h2]
  refine ⟨f1out, f1flush, htask1, hsched1, f2out, hsched2, hflush2, ?_, ?_⟩
  · simp [DB.flushComplete, hredis2]
  · simp only [DB.flushComplete, hredis2, if_true]
    rw [hflush2, f2store, f1store, f2heap, f1heap]

/-- Witness for C7 at a concrete redis-backed database: one flush is
scheduled across two saves, and completing it publishes the rendered store
once. -/
theorem redis_save_coalesced_witness :
    (dbRedis.save 1).1 = .ok true
    ∧ (((dbRedis.save 1).2).save 2).2.scheduled = dbRedis.scheduled + 1
    ∧ ((((dbRedis.save 1).2).save 2).2.flushComplete).2.flushes
        = dbRedis.flushes ++ [renderStore dbRedis.store dbRedis.heap] := by
  have h := redis_save_coalesced dbRedis 1 2
    ⟨by decide, by decide, by decide, by decide, by decide⟩ rfl rfl
  exact ⟨h.1, h.2.2.2.2.2.1, h.2.2.2.2.2.2.2.2⟩

theorem getD_set_lt {α : Type} (l : List α) (i : Nat) (x d : α) (h : i < l.length) :
    (l.set i x).getD i d = x := by
  induction l generalizing i with
  | nil => simp at h
  | cons a rest ih =>
    cases i with
    | zero => simp
    | succ i => simpa using ih i (by simpa using h)

theorem storeSerializable_forall (s : List (PVal × TVal)) (h : Heap) :
    storeSerializable s h = true
      ↔ ∀ kv ∈ s, kv.1.isStr = true ∧ (kv.2.render h).is_serializable = true := by
  induction s with
  | nil => simp [storeSerializable, renderStore, serDict]
  | cons p rest ih =>
    obtain ⟨k, v⟩ := p
    rw [storeSerializable_cons]
    simp only [Bool.and_eq_true, ih, List.mem_cons]
    constructor
    · rintro ⟨⟨h1, h2⟩, h3⟩ kv hkv
      rcases hkv with he | hm
      · rw [he]; exact ⟨h1, h2⟩
      · exact h3 kv hm
    · intro hall
      refine ⟨⟨(hall (k, v) (Or.inl rfl)).1, (hall (k, v) (Or.inl rfl)).2⟩, ?_⟩
      intro kv hkv
      exact hall kv (Or.inr hkv)

theorem nodup_snd_distinct (s : List (PVal × TVal)) (hnr : (s.map Prod.snd).Nodup)
    (o1 o2 : PVal) (v1 v2 : TVal)
    (h1 : (o1, v1) ∈ s) (h2 : (o2, v2) ∈ s) (hne : o1 ≠ o2) : v1 ≠ v2 := by
  induction s with
  | nil => cases h1
  | cons p rest ih =>
    obtain ⟨pk, pv⟩ := p
    simp only [List.map_cons, List.nodup_cons] at hnr
    obtain ⟨hnotin, hrest⟩ := hnr
    rcases List.mem_cons.1 h1 with e1 | m1 <;> rcases List.mem_cons.1 h2 with e2 | m2
    · rw [Prod.mk.injEq] at e1 e2
      exact absurd (e1.1.trans e2.1.symm) hne
    · rw [Prod.mk.injEq] at e1
      intro he
      apply hnotin
      have h3 : pv = v2 := e1.2.symm.trans he
      rw [h3]
      exact List.mem_map_of_mem Prod.snd m2
    · rw [Prod.mk.injEq] at e2
      intro he
      apply hnotin
      have h3 : pv = v1 := e2.2.symm.trans he.symm
      rw [h3]
      exact List.mem_map_of_mem Prod.snd m1
    · exact ih hrest m1 m2

theorem set_fresh_state (db : DB) (so ko : String) (value : PVal) (now : Nat)
    (hser : storeSerializable db.store db.heap = true)
    (href : ∀ kv ∈ db.store, kv.2.isRef = true)
    (hnk : (db.store.map Prod.fst).Nodup)
    (hvr : ∀ kv ∈ db.store, kv.2.validRef db.heap.length = true)
    (hval : value.is_serializable = true)
    (hfresh : alookup (.str so) db.store = none) :
    ((db.set (.str so) (.str ko) value now).2).store
        = db.store ++ [(.str so, .ref db.heap.length)]
    ∧ ((db.set (.str so) (.str ko) value now).2).heap
        = db.heap ++ [[(.str ko, value)]] := by
  have hwrite : storeWrite db (.str so) (.str ko) value
      = some { db with store := db.store ++ [(.str so, .ref db.heap.length)],
                       heap := db.heap ++ [[(.str ko, value)]] } := by
    simp [storeWrite, hfresh]
  set db' : DB := { db with store := db.store ++ [(.str so, .ref db.heap.length)],
                            heap := db.heap ++ [[(.str ko, value)]] }
  have hset : db.set (.str so) (.str ko) value now = db'.save now := by
    simp [DB.set, PVal.is_serializable, hval, hwrite]
  have hser' : storeSerializable db'.store db'.heap = true := by
    show storeSerializable (db.store ++ [(.str so, .ref db.heap.length)])
      (db.heap ++ [[(.str ko, value)]]) = true
    rw [storeSerializable_append, storeSerializable_heap_append _ _ _ hvr, hser]
    simp [storeSerializable, renderStore, TVal.render, getD_append_length, serDict,
      PVal.isStr, PVal.is_serializable, hval]
  have href' : ∀ kv ∈ db'.store, kv.2.isRef = true := by
    intro kv hkv
    rcases List.mem_append.1 hkv with hmem | hmem
    · exact href kv hmem
    · simp only [List.mem_singleton] at hmem
      rw [hmem]
      rfl
  have hnk' : (db'.store.map Prod.fst).Nodup := by
    have hnotin : PVal.str so ∉ db.store.map Prod.fst := (alookup_eq_none _ _).1 hfresh
    show ((db.store ++ [(PVal.str so, TVal.ref db.heap.length)]).map Prod.fst).Nodup
    simp only [List.map_append, List.map_cons, List.map_nil]
    rw [List.nodup_append]
    refine ⟨hnk, List.nodup_singleton _, ?_⟩
    intro x hx hs
    rw [List.mem_singleton] at hs
    exact hnotin (hs ▸ hx)
  rw [hset, save_of_id _ _ hnk' hser' href']
  exact ⟨(savePersist_fields db' now).1, (savePersist_fields db' now).2.1⟩

theorem set_existing_state (db : DB) (so ko : String) (value : PVal) (now : Nat) (a : Nat)
    (hser : storeSerializable db.store db.heap = true)
    (href : ∀ kv ∈ db.store, kv.2.isRef = true)
    (hnk : (db.store.map Prod.fst).Nodup)
    (hvr : ∀ kv ∈ db.store, kv.2.validRef db.heap.length = true)
    (hval : value.is_serializable = true)
    (hlook : alookup (.str so) db.store = some (.ref a)) :
    ((db.set (.str so) (.str ko) value now).2).store = db.store
    ∧ ((db.set (.str so) (.str ko) value now).2).heap
        = db.heap.set a (aset (.str ko) value (db.heap.getD a [])) := by
  have hwrite : storeWrite db (.str so) (.str ko) value
      = some { db with heap := db.heap.set a (aset (.str ko) value (db.heap.getD a [])) } := by
    simp [storeWrite, hlook]
  set db' : DB := { db with heap := db.heap.set a (aset (.str ko) value (db.heap.getD a [])) }
  have hset : db.set (.str so) (.str ko) value now = db'.save now := by
    simp [DB.set, PVal.is_serializable, hval, hwrite]
  have ha : a < db.heap.length := by
    have := hvr _ (alookup_mem _ _ _ hlook)
    simpa [TVal.validRef] using this
  have hns : serDict (db.heap.getD a []) = true :=
    storeSerializable_ref _ _ _ _ hser (alookup_mem _ _ _ hlook)
  have hser' : storeSerializable db'.store db'.heap = true := by
    rw [storeSerializable_forall]
    intro kv hkv
    obtain ⟨hkstr, hkser⟩ := (storeSerializable_forall _ _).1 hser kv hkv
    refine ⟨hkstr, ?_⟩
    cases hv : kv.2 with
    | prim p =>
      rw [hv] at hkser
      exact hkser
    | ref b =>
      by_cases hb : b = a
      · subst hb
        show (TVal.render db'.heap (.ref b)).is_serializable = true
        simp only [TVal.render]
        show (PVal.dict ((db.heap.set b (aset (.str ko) value (db.heap.getD b []))).getD b [])).is_serializable = true
        rw [getD_set_lt _ _ _ _ ha]
        simp only [PVal.is_serializable]
        exact serDict_aset _ _ _ hns rfl hval
      · rw [hv] at hkser
        show (TVal.render db'.heap (.ref b)).is_serializable = true
        simp only [TVal.render] at hkser ⊢
        show (PVal.dict ((db.heap.set a (aset (.str ko) value (db.heap.getD a []))).getD b [])).is_serializable = true
        rw [getD_set_ne _ _ _ _ _ (fun hh => hb hh.symm)]
        exact hkser
  have hnk' : (db'.store.map Prod.fst).Nodup := hnk
  have href' : ∀ kv ∈ db'.store, kv.2.isRef = true := href
  rw [hset, save_of_id db' now hnk' hser' href']
  exact ⟨(savePersist_fields db' now).1, (savePersist_fields db' now).2.1⟩

/-- **C10.** For a string owner and key (the declared signature of `set`)
and a serializable value, on a well-formed store `set(owner, key, value)`
changes at most the single entry at `(owner, key)`: the value observed at
every other coordinate — under another owner, or under another key of the
same owner — is the same after the call as before it. -/
theorem set_frame_property (db : DB) (so ko : String) (value : PVal) (now : Nat)
    (o k : PVal)
    (hwf : db.wf) (hval : value.is_serializable = true)
    (hne : ¬ (o = .str so ∧ k = .str ko)) :
    ((db.set (.str so) (.str ko) value now).2).lookup o k = db.lookup o k := by
  obtain ⟨hser, href, hnk, hnr, hvr⟩ := hwf
  cases hlook : alookup (.str so) db.store with
  | none =>
    obtain ⟨hstore, hheap⟩ := set_fresh_state db so ko value now hser href hnk hvr hval hlook
    simp only [DB.lookup, hstore, hheap]
    cases holook : alookup o db.store with
    | none =>
      by_cases ho : o = .str so
      · subst ho
        rw [alookup_append_none _ _ _ holook]
        have h1 : alookup (PVal.str so) [(PVal.str so, TVal.ref db.heap.length)]
            = some (TVal.ref db.heap.length) := by simp [alookup]
        rw [h1]
        dsimp only
        rw [getD_append_length]
        have hk : k ≠ .str ko := fun hk => hne ⟨rfl, hk⟩
        have hk2 : ¬ PVal.str ko = k := fun hh => hk hh.symm
        simp [alookup, hk2]
      · rw [alookup_append_none _ _ _ holook]
        have hso : ¬ PVal.str so = o := fun hh => ho hh.symm
        have hnone : alookup o [(PVal.str so, TVal.ref db.heap.length)] = none := by
          simp [alookup, hso]
        rw [hnone]
    | some tv =>
      rw [alookup_append_left _ _ _ _ holook]
      cases tv with
      | prim p => rfl
      | ref b =>
        have hb : b < db.heap.length := by
          have := hvr _ (alookup_mem _ _ _ holook)
          simpa [TVal.validRef] using this
        dsimp only
        rw [getD_append_lt _ _ _ _ hb]
  | some tv =>
    cases tv with
    | prim p =>
      have := href _ (alookup_mem _ _ _ hlook)
      simp [TVal.isRef] at this
    | ref a =>
      obtain ⟨hstore, hheap⟩ :=
        set_existing_state db so ko value now a hser href hnk hvr hval hlook
      simp only [DB.lookup, hstore, hheap]
      cases holook : alookup o db.store with
      | none => rfl
      | some tv2 =>
        cases tv2 with
        | prim p => rfl
        | ref b =>
          by_cases hb : b = a
          · subst hb
            by_cases ho : o = .str so
            · subst ho
              have hk : k ≠ .str ko := fun hk => hne ⟨rfl, hk⟩
              have hbl : b < db.heap.length := by
                have := hvr _ (alookup_mem _ _ _ hlook)
                simpa [TVal.validRef] using this
              dsimp only
              rw [getD_set_lt _ _ _ _ hbl, alookup_aset_ne _ _ _ _ hk]
            · exact absurd rfl
                (nodup_snd_distinct db.store hnr o (.str so) (.ref b) (.ref b)
                  (alookup_mem _ _ _ holook) (alookup_mem _ _ _ hlook) ho)
          · dsimp only
            rw [getD_set_ne _ _ _ _ _ (fun hh => hb hh.symm)]

/-- Witness for C10: writing `("b", "k")` into `dbShare` leaves the value
observed at `("a", "k")` unchanged. -/
theorem set_frame_property_witness :
    ((dbShare.set (.str "b") (.str "k") (.int 9) 1).2).lookup (.str "a") (.str "k")
      = dbShare.lookup (.str "a") (.str "k") :=
  set_frame_property dbShare "b" "k" (.int 9) 1 (.str "a") (.str "k")
    ⟨by decide, by decide, by decide, by decide, by decide⟩ (by decide) (by decide)

end HerokuDB
